import Mathlib

/-!
Verification development for a small Redis-like server written in Go
(RESP wire codec `resp.go`, append-only persistence log `aof.go`,
command handlers `handler.go`, connection loop `main.go`).

Go byte strings are modelled as `List Nat` (one entry per byte), the Go
`Value` struct as a nested inductive, the streaming `bufio.Reader` as an
input `List Nat` threaded through the parsing functions, and Go errors
as an explicit error type.  Runtime panics (negative slice allocation,
index out of range) are modelled as a distinguished `panicked` outcome.
-/

namespace RedisGo

/-- The Go struct `Value` from `resp.go`:
`typ string; str string; num int; bulk string; array []Value`.
Byte strings (`str`, `bulk`) are byte lists; `typ` only ever holds short
ASCII tags, so it is kept as a Lean `String`. -/
inductive Value : Type where
  | mk (typ : String) (str : List Nat) (num : Int) (bulk : List Nat) (array : List Value)

/-- Field accessor for `Value.typ`. -/
def Value.typ : Value → String
  | .mk t _ _ _ _ => t

/-- Field accessor for `Value.str`. -/
def Value.str : Value → List Nat
  | .mk _ s _ _ _ => s

/-- Field accessor for `Value.num`. -/
def Value.num : Value → Int
  | .mk _ _ n _ _ => n

/-- Field accessor for `Value.bulk`. -/
def Value.bulk : Value → List Nat
  | .mk _ _ _ b _ => b

/-- Field accessor for `Value.array`. -/
def Value.array : Value → List Value
  | .mk _ _ _ _ a => a

/-- The zero value `Value{}` of the Go struct (all fields zero). -/
def zeroValue : Value := Value.mk "" [] 0 [] []

mutual
/-- Decidable structural equality on `Value` (field for field). -/
def Value.decEq : (a b : Value) → Decidable (a = b)
  | .mk t1 s1 n1 b1 l1, .mk t2 s2 n2 b2 l2 =>
    if h1 : t1 = t2 then
      if h2 : s1 = s2 then
        if h3 : n1 = n2 then
          if h4 : b1 = b2 then
            match Value.decEqList l1 l2 with
            | isTrue h5 => isTrue (by rw [h1, h2, h3, h4, h5])
            | isFalse h5 =>
              isFalse (fun h => by injection h with e1 e2 e3 e4 e5; exact h5 e5)
          else isFalse (fun h => by injection h with e1 e2 e3 e4 e5; exact h4 e4)
        else isFalse (fun h => by injection h with e1 e2 e3 e4 e5; exact h3 e3)
      else isFalse (fun h => by injection h with e1 e2 e3 e4 e5; exact h2 e2)
    else isFalse (fun h => by injection h with e1 e2 e3 e4 e5; exact h1 e1)

/-- Decidable structural equality on lists of `Value`. -/
def Value.decEqList : (as bs : List Value) → Decidable (as = bs)
  | [], [] => isTrue rfl
  | [], _ :: _ => isFalse (by simp)
  | _ :: _, [] => isFalse (by simp)
  | a :: as, b :: bs =>
    match Value.decEq a b, Value.decEqList as bs with
    | isTrue h1, isTrue h2 => isTrue (by rw [h1, h2])
    | isFalse h1, _ => isFalse (fun h => by injection h with e1 e2; exact h1 e1)
    | _, isFalse h2 => isFalse (fun h => by injection h with e1 e2; exact h2 e2)
end

instance : DecidableEq Value := Value.decEq

/-- Bytes of a Lean string literal, for writing Go string constants. -/
def gs (s : String) : List Nat := s.data.map Char.toNat

/-- Decimal digit bytes of a natural number, fuel-driven so that it is
structurally recursive (kernel-reducible).  Models `strconv.Itoa` for the
non-negative arguments it receives in `resp.go` (slice lengths). -/
def itoaFuel : Nat → Nat → List Nat
  | 0, _ => []
  | fuel + 1, n =>
    if n < 10 then [48 + n] else itoaFuel fuel (n / 10) ++ [48 + n % 10]

/-- Function `strconv.Itoa` on a slice length: standard base-10
representation. -/
def itoa (n : Nat) : List Nat := itoaFuel (n + 1) n

/-- Digit-string value: `none` unless the byte list is nonempty and all
bytes are ASCII digits; otherwise the base-10 value (most significant
digit first). -/
def digitsVal (l : List Nat) : Option Nat :=
  if l = [] then none
  else if l.all (fun b => 48 ≤ b && b ≤ 57) then
    some (l.foldl (fun a b => a * 10 + (b - 48)) 0)
  else none

/-- Function `strconv.ParseInt(s, 10, 64)` as called by `readInteger`:
optional sign, nonempty digit string, must fit in a signed 64-bit
integer; `none` models a non-nil `strconv` error. -/
def parseIntGo (s : List Nat) : Option Int :=
  match s with
  | [] => none
  | c :: rest =>
    if c = 43 then
      match digitsVal rest with
      | none => none
      | some n => if n ≤ 2 ^ 63 - 1 then some (n : Int) else none
    else if c = 45 then
      match digitsVal rest with
      | none => none
      | some n => if n ≤ 2 ^ 63 then some (-(n : Int)) else none
    else
      match digitsVal s with
      | none => none
      | some n => if n ≤ 2 ^ 63 - 1 then some (n : Int) else none

mutual
/-- Method `Value.Marshal` from `resp.go`: dispatches on `typ` to the five
wire forms (the per-type helpers `marshalArray`, `marshalBulk`,
`marshalString`, `marshallNull`, `marshallError` are inlined, in the
switch order of the source), default case yields an empty byte slice.
Byte 42 is the array tag, 36 the bulk tag, 43 the simple-string tag,
45 the error tag, 13 10 is CRLF. -/
def Value.Marshal : Value → List Nat
  | .mk typ str _num bulk array =>
    if typ = "array" then
      [42] ++ itoa array.length ++ [13, 10] ++ marshalList array
    else if typ = "bulk" then
      [36] ++ itoa bulk.length ++ [13, 10] ++ bulk ++ [13, 10]
    else if typ = "string" then
      [43] ++ str ++ [13, 10]
    else if typ = "null" then
      [36, 45, 49, 13, 10]
    else if typ = "error" then
      [45] ++ str ++ [13, 10]
    else []

/-- The loop in `marshalArray`: concatenated `Marshal` of the elements. -/
def marshalList : List Value → List Nat
  | [] => []
  | v :: vs => Value.Marshal v ++ marshalList vs
end

/-- Go error outcomes observable from the reading side of the codec:
`eof` is `io.EOF` (reading past end of input), `numError` a non-nil
`strconv.ParseInt` error, `panicked` a runtime panic unwinding the
goroutine (negative slice allocation, index out of range), `outOfFuel`
an artifact of the fuel-based model that is never produced when the
fuel exceeds the input length. -/
inductive GoErr : Type where
  | eof
  | numError
  | panicked
  | outOfFuel
deriving DecidableEq

deriving instance DecidableEq for Except

/-- The loop body of `Resp.readLine` (`resp.go`): read one byte at a
time, appending to `line`; stop as soon as the line has at least two
bytes and its second-to-last byte is CR (13) — the byte after the CR is
consumed no matter what it is — and return the line with its last two
bytes stripped.  A read past end of input returns `io.EOF`. -/
def readLineLoop : List Nat → List Nat → Except GoErr (List Nat × List Nat)
  | [], _ => .error .eof
  | b :: input, line =>
    let line2 := line ++ [b]
    if 2 ≤ line2.length ∧ line2.getD (line2.length - 2) 0 = 13 then
      .ok (line2.take (line2.length - 2), input)
    else readLineLoop input line2

/-- Method `Resp.readLine`: returns the line (terminator stripped) and
the unconsumed remainder of the input. -/
def readLineGo (input : List Nat) : Except GoErr (List Nat × List Nat) :=
  readLineLoop input []

/-- Method `Resp.readInteger`: read a line and parse it with
`strconv.ParseInt(line, 10, 64)`. -/
def readIntegerGo (input : List Nat) : Except GoErr (Int × List Nat) :=
  match readLineGo input with
  | .error e => .error e
  | .ok (line, rest) =>
    match parseIntGo line with
    | none => .error .numError
    | some i => .ok (i, rest)

/-- Method `Resp.readBulk` (after the `$` tag byte): read the declared
length; a negative length panics in Go (`make([]byte, len)` with
negative argument), modelled as `panicked`.  Otherwise
`bufio.Reader.Read` fills a zero-initialised buffer with at most the
available bytes (a short read leaves trailing zero bytes and its error
is ignored), and the trailing `readLine` call that skips the closing
CRLF has both its results and its error ignored (on EOF the whole
remaining input has been consumed). -/
def readBulkGo (input : List Nat) : Except GoErr (Value × List Nat) :=
  match readIntegerGo input with
  | .error e => .error e
  | .ok (len, rest) =>
    if len < 0 then .error .panicked
    else
      let n := len.toNat
      let bulk := rest.take n ++ List.replicate (n - rest.length) 0
      let rest1 := rest.drop n
      match readLineGo rest1 with
      | .ok (_, rest2) => .ok (Value.mk "bulk" [] 0 bulk [], rest2)
      | .error _ => .ok (Value.mk "bulk" [] 0 bulk [], [])

/-- The element loop of `Resp.readArray`: run the given reader `count`
times, collecting the values in order; the first element error aborts
the array with that error (the partially built array is discarded by
every caller). -/
def readElems (readFn : List Nat → Except GoErr (Value × List Nat)) :
    Nat → List Nat → Except GoErr (List Value × List Nat)
  | 0, input => .ok ([], input)
  | k + 1, input =>
    match readFn input with
    | .error e => .error e
    | .ok (v, rest) =>
      match readElems readFn k rest with
      | .error e => .error e
      | .ok (vs, rest2) => .ok (v :: vs, rest2)

/-- Method `Resp.Read`: read the type-tag byte (EOF there is `io.EOF`),
then dispatch: `*` (42) reads a length line and that many recursively
parsed elements (`Resp.readArray`, inlined; a non-positive count reads
no elements), `$` (36) reads a bulk string, and any other tag logs a
message and returns the zero `Value` with a nil error.  The `fuel`
argument only bounds recursion depth; depth is bounded by the input
length, so `fuel = input.length + 1` (see `RespRead`) never runs out. -/
def respRead : Nat → List Nat → Except GoErr (Value × List Nat)
  | 0, _ => .error .outOfFuel
  | fuel + 1, input =>
    match input with
    | [] => .error .eof
    | t :: rest =>
      if t = 42 then
        match readIntegerGo rest with
        | .error e => .error e
        | .ok (count, rest1) =>
          match readElems (respRead fuel) count.toNat rest1 with
          | .error e => .error e
          | .ok (vs, rest2) => .ok (Value.mk "array" [] 0 [] vs, rest2)
      else if t = 36 then readBulkGo rest
      else .ok (zeroValue, rest)

/-- Entry point `Resp.Read` on a byte stream: one top-level value plus
the unconsumed remainder. -/
def RespRead (input : List Nat) : Except GoErr (Value × List Nat) :=
  respRead (input.length + 1) input



/-- The two global stores of `handler.go`: `SETs` (flat string map) and
`HSETs` (hash name to inner field map), modelled as association lists
with Go-map lookup/update semantics. -/
structure Store where
  SETs : List (List Nat × List Nat)
  HSETs : List (List Nat × List (List Nat × List Nat))
deriving DecidableEq

/-- A fresh, empty store (both maps empty at process start). -/
def emptyStore : Store := { SETs := [], HSETs := [] }

/-- Go map assignment `m[k] = v`: replace the binding if the key is
present, otherwise add it. -/
def upd {α : Type} (m : List (List Nat × α)) (k : List Nat) (v : α) :
    List (List Nat × α) :=
  match m with
  | [] => [(k, v)]
  | (k1, v1) :: rest => if k1 = k then (k, v) :: rest else (k1, v1) :: upd rest k v

/-- The arity error text of each handler, with the command name quoted;
byte 39 is the quote character. -/
def wrongArgsMsg (cmd : List Nat) : List Nat :=
  gs "ERR wrong number of arguments for " ++ [39] ++ cmd ++ [39] ++ gs " command"

/-- Handler `ping` from `handler.go`: no arguments echoes `PONG`,
otherwise the bulk payload of the first argument, as a simple string.  Every
handler is modelled with explicit store passing `Store → Value × Store`
in place of the Go globals. -/
def ping (args : List Value) (s : Store) : Value × Store :=
  match args with
  | [] => (Value.mk "string" (gs "PONG") 0 [] [], s)
  | a :: _ => (Value.mk "string" a.bulk 0 [] [], s)

/-- Handler `set`: exactly two arguments (key, value) or an arity
error; upserts into `SETs` and returns simple string `OK`. -/
def set (args : List Value) (s : Store) : Value × Store :=
  if args.length ≠ 2 then
    (Value.mk "error" (wrongArgsMsg (gs "set")) 0 [] [], s)
  else
    (Value.mk "string" (gs "OK") 0 [] [],
      { s with SETs := upd s.SETs (args.getD 0 zeroValue).bulk (args.getD 1 zeroValue).bulk })

/-- Handler `get`: exactly one argument (key) or an arity error; a
missing key yields the null value, otherwise the value as a bulk
string. -/
def get (args : List Value) (s : Store) : Value × Store :=
  if args.length ≠ 1 then
    (Value.mk "error" (wrongArgsMsg (gs "get")) 0 [] [], s)
  else
    match List.lookup (args.getD 0 zeroValue).bulk s.SETs with
    | none => (Value.mk "null" [] 0 [] [], s)
    | some value => (Value.mk "bulk" [] 0 value [], s)

/-- Handler `hset`: exactly three arguments (hash, field, value) or an
arity error; creates the inner map on first write to a hash key, then
upserts the field, and returns simple string `OK`. -/
def hset (args : List Value) (s : Store) : Value × Store :=
  if args.length ≠ 3 then
    (Value.mk "error" (wrongArgsMsg (gs "hset")) 0 [] [], s)
  else
    (Value.mk "string" (gs "OK") 0 [] [],
      { s with
          HSETs :=
            upd s.HSETs (args.getD 0 zeroValue).bulk
              (upd
                (match List.lookup (args.getD 0 zeroValue).bulk s.HSETs with
                  | none => []
                  | some m => m)
                (args.getD 1 zeroValue).bulk (args.getD 2 zeroValue).bulk) })

/-- Handler `hget`: exactly two arguments (hash, field) or an arity
error; `HSETs[hash][key]` misses (null value) when either the hash or
the field is absent. -/
def hget (args : List Value) (s : Store) : Value × Store :=
  if args.length ≠ 2 then
    (Value.mk "error" (wrongArgsMsg (gs "hget")) 0 [] [], s)
  else
    match List.lookup (args.getD 1 zeroValue).bulk
        (match List.lookup (args.getD 0 zeroValue).bulk s.HSETs with
          | none => []
          | some m => m) with
    | none => (Value.mk "null" [] 0 [] [], s)
    | some value => (Value.mk "bulk" [] 0 value [], s)

/-- The `Handlers` map from `handler.go`, keyed by upper-case command
name. -/
def Handlers (command : List Nat) : Option (List Value → Store → Value × Store) :=
  if command = gs "PING" then some ping
  else if command = gs "SET" then some set
  else if command = gs "GET" then some get
  else if command = gs "HSET" then some hset
  else if command = gs "HGET" then some hget
  else none

/-- Function `strings.ToUpper` restricted to the byte alphabet: upper-case the
ASCII letters. -/
def toUpper (s : List Nat) : List Nat :=
  s.map fun b => if 97 ≤ b ∧ b ≤ 122 then b - 32 else b

/-- The per-connection server state touched by one iteration of the
request loop in `main`: the in-memory store and the bytes appended so
far to the AOF file. -/
structure ServerState where
  store : Store
  aof : List Nat
deriving DecidableEq

/-- One iteration of the request loop in `main` on an already parsed
request `value`: non-array or empty-array requests are skipped with no
response; an unknown command answers an error; otherwise, when the
upper-cased command name is `SET` or `HSET` the `Marshal` bytes of the
request are appended to the AOF (before the handler runs, and
regardless of the validation done by the handler; `Aof.Write` failures
are ignored), and the handler result is the response. -/
def handleRequest (st : ServerState) (value : Value) : ServerState × Option Value :=
  if value.typ ≠ "array" then (st, none)
  else if value.array.length = 0 then (st, none)
  else
    match Handlers (toUpper (value.array.headD zeroValue).bulk) with
    | none =>
      (st, some (Value.mk "error"
        (gs "ERR unknown command " ++ [39] ++
          toUpper (value.array.headD zeroValue).bulk ++ [39]) 0 [] []))
    | some handler =>
      if toUpper (value.array.headD zeroValue).bulk = gs "SET" ∨
          toUpper (value.array.headD zeroValue).bulk = gs "HSET" then
        ({ store := (handler value.array.tail st.store).2,
           aof := st.aof ++ value.Marshal },
         some (handler value.array.tail st.store).1)
      else
        ({ store := (handler value.array.tail st.store).2, aof := st.aof },
         some (handler value.array.tail st.store).1)

/-- The replay callback passed to `Aof.Read` by `main`: take
`value.array[0]` as the command (a panic — `none` — when the array is
empty or nil), upper-case it, skip unknown commands, and run the
handler against the store, discarding its response. -/
def replayApply (s : Store) (value : Value) : Option Store :=
  match value.array with
  | [] => none
  | cmd :: args =>
    match Handlers (toUpper cmd.bulk) with
    | none => some s
    | some handler => some (handler args s).2

/-- The loop of `Aof.Read` (`aof.go`): parse one record; on a nil error
run the callback; on `io.EOF` — whether or not record bytes were
already consumed — stop and report success; on any other error stop and
surface that error.  Returns the store as mutated so far together with
the surfaced error, if any. -/
def aofLoop : Nat → List Nat → Store → Store × Option GoErr
  | 0, _, s => (s, some .outOfFuel)
  | fuel + 1, input, s =>
    match respRead (input.length + 1) input with
    | .ok (v, rest) =>
      match replayApply s v with
      | some s2 => aofLoop fuel rest s2
      | none => (s, some .panicked)
    | .error .eof => (s, none)
    | .error e => (s, some e)

/-- Method `Aof.Read` over the byte contents of the log, starting from the given
store. -/
def AofRead (input : List Nat) (s : Store) : Store × Option GoErr :=
  aofLoop (input.length + 1) input s

/-- What the initialization in `main` reaches. -/
structure InitResult where
  store : Store
  listening : Bool
deriving DecidableEq

/-- Startup sequence of `main` (`main.go`): replay the AOF into the
empty store, then proceed to `net.Listen`.  The return value of
`aof.Read` is discarded, so a replay error does not stop startup; only
a panic in the callback (or the fuel artifact, standing for
non-termination) prevents reaching the listen call. -/
def mainInit (aofBytes : List Nat) : InitResult :=
  let r := AofRead aofBytes emptyStore
  match r.2 with
  | some GoErr.panicked => { store := r.1, listening := false }
  | some GoErr.outOfFuel => { store := r.1, listening := false }
  | _ => { store := r.1, listening := true }

/-- Well-formed parser-shaped values: exactly the grammar the parser can
produce without hitting the unknown-tag default, and the serializer can
emit in parseable form — `typ = "bulk"` nodes and `typ = "array"` nodes
with all other fields at their zero values.  The `2 ^ 63` bounds are the
Go `int`/slice-length bounds, automatic in Go and made explicit here. -/
inductive WFValue : Value → Prop where
  | bulk (s : List Nat) (h : s.length < 2 ^ 63) : WFValue (Value.mk "bulk" [] 0 s [])
  | array (l : List Value) (h : l.length < 2 ^ 63)
      (hl : ∀ v ∈ l, WFValue v) : WFValue (Value.mk "array" [] 0 [] l)

/-- A bulk-string `Value` as built by the parser for client arguments. -/
def bulkV (s : List Nat) : Value := Value.mk "bulk" [] 0 s []

/-- An array `Value` as built by the parser for client requests. -/
def arrayV (l : List Value) : Value := Value.mk "array" [] 0 [] l

/-- Substring relation: `needle` occurs contiguously inside
`haystack`. -/
def containsBytes (needle haystack : List Nat) : Prop :=
  ∃ pre post, haystack = pre ++ needle ++ post

/-- The request `SET "k" "1"` as the parser would deliver it. -/
def c6req1 : Value := arrayV [bulkV (gs "SET"), bulkV (gs "k"), bulkV (gs "1")]

/-- The request `HSET "h" "f" "2"` as the parser would deliver it. -/
def c6req2 : Value := arrayV [bulkV (gs "HSET"), bulkV (gs "h"), bulkV (gs "f"), bulkV (gs "2")]

/-- The store expected after replaying the two records above. -/
def c6store : Store := { SETs := [(gs "k", gs "1")], HSETs := [(gs "h", [(gs "f", gs "2")])] }

/-! ### Supporting lemmas: decimal digits round-trip through `ParseInt` -/

theorem itoaFuel_spec : ∀ fuel n, n < fuel →
    (itoaFuel fuel n).foldl (fun a b => a * 10 + (b - 48)) 0 = n ∧
    itoaFuel fuel n ≠ [] ∧ ∀ x ∈ itoaFuel fuel n, 48 ≤ x ∧ x ≤ 57 := by
  intro fuel
  induction fuel with
  | zero => intro n h; exact absurd h (Nat.not_lt_zero n)
  | succ f ih =>
    intro n h
    rw [itoaFuel]
    by_cases h10 : n < 10
    · rw [if_pos h10]
      refine ⟨by simp, by simp, ?_⟩
      intro x hx
      simp only [List.mem_singleton] at hx
      omega
    · rw [if_neg h10]
      have hdiv : n / 10 < f := by
        have := Nat.div_lt_self (by omega : 0 < n) (by omega : 1 < 10)
        omega
      obtain ⟨hv, hne, hd⟩ := ih (n / 10) hdiv
      refine ⟨?_, by simp, ?_⟩
      · rw [List.foldl_append, hv]
        simp only [List.foldl]
        have := Nat.div_add_mod n 10
        have : n % 10 < 10 := Nat.mod_lt n (by omega)
        omega
      · intro x hx
        rcases List.mem_append.mp hx with h1 | h2
        · exact hd x h1
        · simp only [List.mem_singleton] at h2
          have : n % 10 < 10 := Nat.mod_lt n (by omega)
          omega

theorem itoa_spec (n : Nat) :
    (itoa n).foldl (fun a b => a * 10 + (b - 48)) 0 = n ∧ itoa n ≠ [] ∧
    ∀ x ∈ itoa n, 48 ≤ x ∧ x ≤ 57 :=
  itoaFuel_spec (n + 1) n (Nat.lt_succ_self n)

theorem parseIntGo_itoa (n : Nat) (h : n < 2 ^ 63) :
    parseIntGo (itoa n) = some (n : Int) := by
  obtain ⟨hv, hne, hd⟩ := itoa_spec n
  have hall : (itoa n).all (fun b => 48 ≤ b && b ≤ 57) = true := by
    rw [List.all_eq_true]
    intro x hx
    have := hd x hx
    simp only [Bool.and_eq_true, decide_eq_true_eq]
    omega
  have hdv : digitsVal (itoa n) = some n := by
    rw [digitsVal, if_neg hne, if_pos hall, hv]
  match hl : itoa n with
  | [] => exact absurd hl hne
  | c :: rest =>
    have hc := hd c (by rw [hl]; exact List.mem_cons_self c rest)
    rw [hl] at hdv
    rw [parseIntGo, if_neg (by omega : ¬ c = 43), if_neg (by omega : ¬ c = 45), hdv]
    have hle : n ≤ 9223372036854775807 := by omega
    simp [hle]

/-! ### Supporting lemmas: `readLine` on a CR-terminated line -/

theorem getD_mem_of_lt : ∀ (l : List Nat) (i : Nat), i < l.length → l.getD i 0 ∈ l := by
  intro l
  induction l with
  | nil => intro i h; exact absurd h (by simp)
  | cons a t ih =>
    intro i h
    cases i with
    | zero => simp
    | succ j =>
      simp only [List.getD_cons_succ]
      exact List.mem_cons_of_mem a (ih j (by simpa using h))

/-- If no byte of `acc ++ ds` is CR, the `readLine` loop scans past
`ds`, consumes the CR together with the single byte after it (whatever
that byte is), and returns `acc ++ ds`. -/
theorem readLineLoop_spec : ∀ (ds acc : List Nat) (b : Nat) (rest : List Nat),
    (∀ x ∈ acc ++ ds, x ≠ 13) →
    readLineLoop (ds ++ 13 :: b :: rest) acc = .ok (acc ++ ds, rest) := by
  intro ds
  induction ds with
  | nil =>
    intro acc b rest h
    rw [List.append_nil] at h
    simp only [List.nil_append]
    rw [readLineLoop]
    have hcond1 : ¬(2 ≤ (acc ++ [13]).length ∧ (acc ++ [13]).getD ((acc ++ [13]).length - 2) 0 = 13) := by
      cases acc with
      | nil => simp
      | cons a t =>
        intro ⟨_, h2⟩
        have hlen : ((a :: t) ++ [13]).length - 2 = t.length := by
          simp [List.length_append]
        rw [hlen, List.getD_append _ _ _ _ (by simp)] at h2
        exact h (((a :: t)).getD t.length 0) (getD_mem_of_lt (a :: t) t.length (by simp)) h2
    rw [if_neg hcond1, readLineLoop]
    have hcond2 : 2 ≤ ((acc ++ [13]) ++ [b]).length ∧
        ((acc ++ [13]) ++ [b]).getD (((acc ++ [13]) ++ [b]).length - 2) 0 = 13 := by
      constructor
      · simp [List.length_append]
      · have hlen : ((acc ++ [13]) ++ [b]).length - 2 = acc.length := by
          simp [List.length_append]
        rw [hlen, List.getD_append _ _ _ _ (by simp),
          List.getD_append_right _ _ _ _ (by simp)]
        simp
    rw [if_pos hcond2]
    have hlen : ((acc ++ [13]) ++ [b]).length - 2 = acc.length := by
      simp [List.length_append]
    rw [hlen]
    rw [List.append_assoc, List.take_left]
    simp
  | cons d ds ih =>
    intro acc b rest h
    have hd : d ≠ 13 := h d (by simp)
    simp only [List.cons_append]
    rw [readLineLoop]
    have hcond : ¬(2 ≤ (acc ++ [d]).length ∧ (acc ++ [d]).getD ((acc ++ [d]).length - 2) 0 = 13) := by
      cases acc with
      | nil => simp [hd]
      | cons a t =>
        intro ⟨_, h2⟩
        have hlen : ((a :: t) ++ [d]).length - 2 = t.length := by
          simp [List.length_append]
        rw [hlen, List.getD_append _ _ _ _ (by simp)] at h2
        exact h (((a :: t)).getD t.length 0)
          (List.mem_append_left _ (getD_mem_of_lt _ _ (by simp))) h2
    rw [if_neg hcond]
    have := ih (acc ++ [d]) b rest (by
      intro x hx
      apply h
      rcases List.mem_append.mp hx with h1 | h2
      · rcases List.mem_append.mp h1 with h3 | h4
        · exact List.mem_append_left _ h3
        · simp only [List.mem_singleton] at h4
          subst h4
          exact List.mem_append_right _ (by simp)
      · exact List.mem_append_right _ (by simp [h2]))
    rw [this]
    simp [List.append_assoc]

/-- Running `readLine` on a line of non-CR bytes followed by CR and one more
byte: the line is returned, both terminator bytes consumed. -/
theorem readLineGo_spec (ds : List Nat) (b : Nat) (rest : List Nat)
    (h : ∀ x ∈ ds, x ≠ 13) :
    readLineGo (ds ++ 13 :: b :: rest) = .ok (ds, rest) := by
  have := readLineLoop_spec ds [] b rest (by simpa using h)
  simpa using this

/-- Running `readInteger` on a decimal length line terminated by CRLF. -/
theorem readIntegerGo_itoa (n : Nat) (h : n < 2 ^ 63) (rest : List Nat) :
    readIntegerGo (itoa n ++ 13 :: 10 :: rest) = .ok ((n : Int), rest) := by
  rw [readIntegerGo, readLineGo_spec (itoa n) 10 rest
    (by intro x hx; have := (itoa_spec n).2.2 x hx; omega)]
  simp only [parseIntGo_itoa n h]

/-! ### The parser-serializer common grammar and the round-trip -/

theorem marshal_bulk (s : List Nat) :
    (Value.mk "bulk" [] 0 s []).Marshal =
      [36] ++ itoa s.length ++ [13, 10] ++ s ++ [13, 10] := rfl

theorem marshal_array (l : List Value) :
    (Value.mk "array" [] 0 [] l).Marshal =
      [42] ++ itoa l.length ++ [13, 10] ++ marshalList l := rfl

theorem marshal_mem_le (v : Value) (l : List Value) (hv : v ∈ l) :
    v.Marshal.length ≤ (marshalList l).length := by
  induction l with
  | nil => exact absurd hv (by simp)
  | cons a t ih =>
    rw [marshalList]
    rcases List.mem_cons.mp hv with h | h
    · subst h
      simp [List.length_append]
    · have := ih h
      simp only [List.length_append]
      omega

theorem readElems_marshal (f : Nat) :
    ∀ (l : List Value),
      (∀ v ∈ l, ∀ rest, respRead f (v.Marshal ++ rest) = .ok (v, rest)) →
      ∀ rest, readElems (respRead f) l.length (marshalList l ++ rest) = .ok (l, rest) := by
  intro l
  induction l with
  | nil =>
    intro _ rest
    rw [marshalList]
    simp [readElems]
  | cons a t ih =>
    intro hIH rest
    rw [marshalList, List.append_assoc, List.length_cons, readElems]
    simp only [hIH a (by simp) (marshalList t ++ rest),
      ih (fun v hv => hIH v (List.mem_cons_of_mem a hv)) rest]

theorem respRead_marshal : ∀ (v : Value), WFValue v →
    ∀ (fuel : Nat) (rest : List Nat), v.Marshal.length ≤ fuel →
      respRead fuel (v.Marshal ++ rest) = .ok (v, rest) := by
  intro v hwf
  induction hwf with
  | bulk s hs =>
    intro fuel rest hfuel
    rw [marshal_bulk] at hfuel ⊢
    obtain ⟨f, rfl⟩ : ∃ f, fuel = f + 1 := by
      cases fuel with
      | zero =>
        exfalso
        simp [List.length_append] at hfuel
      | succ f => exact ⟨f, rfl⟩
    simp only [List.append_assoc, List.cons_append, List.nil_append]
    rw [respRead]
    rw [if_neg (by decide : ¬ (36 : Nat) = 42), if_pos rfl]
    rw [readBulkGo]
    simp only [readIntegerGo_itoa s.length hs (s ++ 13 :: 10 :: rest)]
    rw [if_neg (by simp : ¬ ((s.length : Int) < 0))]
    have htake : (s ++ 13 :: 10 :: rest).take s.length = s :=
      List.take_left s (13 :: 10 :: rest)
    have hdrop : (s ++ 13 :: 10 :: rest).drop s.length = 13 :: 10 :: rest :=
      List.drop_left s (13 :: 10 :: rest)
    have hrepl : s.length - (s ++ 13 :: 10 :: rest).length = 0 := by
      simp [List.length_append]
    have hline : readLineGo (13 :: 10 :: rest) = .ok ([], rest) :=
      readLineGo_spec [] 10 rest (by simp)
    simp [htake, hdrop, hrepl, hline]
  | array l hlen hl ih =>
    intro fuel rest hfuel
    rw [marshal_array] at hfuel ⊢
    have hitoa : 1 ≤ (itoa l.length).length := by
      have := (itoa_spec l.length).2.1
      cases h : itoa l.length with
      | nil => exact absurd h this
      | cons c cs => simp
    obtain ⟨f, rfl⟩ : ∃ f, fuel = f + 1 := by
      cases fuel with
      | zero =>
        exfalso
        simp [List.length_append] at hfuel
      | succ f => exact ⟨f, rfl⟩
    have hmem : ∀ v ∈ l, ∀ rest2, respRead f (v.Marshal ++ rest2) = .ok (v, rest2) := by
      intro v hv rest2
      apply ih v hv
      have h1 := marshal_mem_le v l hv
      have h2 := hfuel
      simp only [List.length_append, List.length_cons, List.length_nil] at h2
      omega
    simp only [List.append_assoc, List.cons_append, List.nil_append]
    rw [respRead]
    rw [if_pos rfl]
    simp only [readIntegerGo_itoa l.length hlen (marshalList l ++ rest), Int.toNat_natCast]
    simp only [readElems_marshal f l hmem rest]

/-- Round-trip on the common grammar: `Resp.Read` parses `Marshal v`
back to exactly `v`, consuming the whole serialization. -/
theorem RespRead_marshal (v : Value) (h : WFValue v) :
    RespRead v.Marshal = .ok (v, []) := by
  rw [RespRead]
  have := respRead_marshal v h (v.Marshal.length + 1) [] (by omega)
  simpa using this

/-! ### Supporting lemmas: replay never surfaces `io.EOF` -/

theorem aofLoop_no_eof : ∀ (fuel : Nat) (input : List Nat) (s : Store),
    (aofLoop fuel input s).2 ≠ some GoErr.eof := by
  intro fuel
  induction fuel with
  | zero => intro input s; simp [aofLoop]
  | succ f ih =>
    intro input s
    rw [aofLoop]
    cases h : respRead (input.length + 1) input with
    | ok p =>
      obtain ⟨v, rest⟩ := p
      show (match replayApply s v with
        | some s2 => aofLoop f rest s2
        | none => (s, some GoErr.panicked)).2 ≠ some GoErr.eof
      cases h2 : replayApply s v with
      | some s2 => exact ih rest s2
      | none => simp
    | error e =>
      cases e <;> simp

/-! ### Claim C1 -/

/-- C1, counterexample: the claim quantifies over every constructible
`Value` with no negative-length non-Null bulk (a vacuous restriction on
the Go struct, whose `bulk` field always has non-negative length), but
a simple-string value serializes to a `+`-tagged record that the
unknown-tag default of `Read` turns into the zero `Value`, not back
into the original value. -/
theorem C1_counterexample :
    RespRead (Value.Marshal (Value.mk "string" (gs "PONG") 0 [] [])) =
      .ok (zeroValue, gs "PONG\r\n") ∧
    zeroValue ≠ Value.mk "string" (gs "PONG") 0 [] [] := by decide

/-- C1, amended: the round-trip `Read (Marshal v) = v` holds exactly on
the parser-serializer common grammar `WFValue` (bulk-string nodes and
array nodes with zero remaining fields, Go-`int` length bounds), where
the whole serialization is consumed; simple strings, errors, integers,
null and the zero value fall outside it. -/
theorem C1_round_trip (v : Value) (h : WFValue v) :
    RespRead v.Marshal = .ok (v, []) :=
  RespRead_marshal v h

theorem C1_round_trip_witness :
    WFValue (arrayV [bulkV (gs "hi"), arrayV [bulkV []]]) ∧
    RespRead (arrayV [bulkV (gs "hi"), arrayV [bulkV []]]).Marshal =
      .ok (arrayV [bulkV (gs "hi"), arrayV [bulkV []]], []) := by
  have hwf : WFValue (arrayV [bulkV (gs "hi"), arrayV [bulkV []]]) := by
    apply WFValue.array _ (by decide)
    intro v hv
    simp only [List.mem_cons, List.not_mem_nil, or_false] at hv
    rcases hv with rfl | rfl
    · exact WFValue.bulk _ (by decide)
    · apply WFValue.array _ (by decide)
      intro w hw
      simp only [List.mem_cons, List.not_mem_nil, or_false] at hw
      subst hw
      exact WFValue.bulk _ (by decide)
  exact ⟨hwf, C1_round_trip _ hwf⟩

/-! ### Claim C2 -/

/-- C2, counterexample: on the canonical Null record `$-1\x0d\x0a` the
parser does not return the Null value; it reaches
`make([]byte, -1)` and panics (aborts), refuting both halves of the
claim. -/
theorem C2_counterexample :
    RespRead (gs "$-1\r\n") = .error GoErr.panicked := by decide

/-- C2, amended: for every input whose next record is a bulk string
with a negative declared length, `readBulk` panics on the
negative-length slice allocation before reading any payload byte — it
neither returns Null nor continues. -/
theorem C2_negative_bulk (input : List Nat) (len : Int) (rest : List Nat)
    (h : readIntegerGo input = .ok (len, rest)) (hneg : len < 0) :
    readBulkGo input = .error GoErr.panicked := by
  simp [readBulkGo, h, hneg]

theorem C2_negative_bulk_witness :
    readIntegerGo (gs "-1\r\nxyz") = .ok (-1, gs "xyz") ∧ (-1 : Int) < 0 ∧
    readBulkGo (gs "-1\r\nxyz") = .error GoErr.panicked :=
  ⟨by decide, by decide, C2_negative_bulk _ (-1) (gs "xyz") (by decide) (by decide)⟩

/-! ### Claim C3 -/

/-- C3, counterexample: the log bytes `*1` end mid-record (after the
type tag, inside the length line), yet replay ends successfully — the
`io.EOF` raised mid-record is taken by the loop of `Aof.Read` as the
clean-termination signal, so no error is surfaced to the caller,
refuting the second half of the claim. -/
theorem C3_counterexample :
    AofRead (gs "*1") emptyStore = (emptyStore, none) := by decide

/-- C3, amended: end of input before the first type-tag byte does end
replay successfully, but so does end of input in the middle of a
record: `Aof.Read` treats every `io.EOF` as clean termination (and
`readBulk` swallows read errors inside a payload), so no replay outcome
ever surfaces `io.EOF`; only non-EOF protocol errors, such as a
non-numeric length line, abort replay and are surfaced. -/
theorem C3_eof_handling :
    (∀ s : Store, AofRead [] s = (s, none)) ∧
    (∀ (input : List Nat) (s : Store), (AofRead input s).2 ≠ some GoErr.eof) ∧
    AofRead (gs "*a\r\n") emptyStore = (emptyStore, some GoErr.numError) := by
  refine ⟨fun s => rfl, fun input s => aofLoop_no_eof _ _ _, by decide⟩

theorem C3_eof_handling_witness :
    AofRead [] emptyStore = (emptyStore, none) ∧
    (AofRead (gs "$5\r\nab") emptyStore).2 ≠ some GoErr.eof :=
  ⟨C3_eof_handling.1 emptyStore, C3_eof_handling.2.1 (gs "$5\r\nab") emptyStore⟩

/-! ### Claim C4 -/

/-- C4, counterexample: the log `*a\x0d\x0a` makes `Aof.Read` return a
non-nil (non-EOF) error, yet `main` still reaches `net.Listen` — the
replay error does not abort initialization, refuting the claim. -/
theorem C4_counterexample :
    AofRead (gs "*a\r\n") emptyStore = (emptyStore, some GoErr.numError) ∧
    (mainInit (gs "*a\r\n")).listening = true := by decide

/-- C4, amended: `main` discards the return value of `aof.Read`, so when
replay fails with an error the process still proceeds to listen for
connections (only a panic inside the replay callback would prevent
that). -/
theorem C4_listen_despite_error (bytes : List Nat)
    (h : (AofRead bytes emptyStore).2 = some GoErr.numError) :
    (mainInit bytes).listening = true := by
  simp [mainInit, h]

theorem C4_listen_despite_error_witness :
    (AofRead (gs "*a\r\n") emptyStore).2 = some GoErr.numError ∧
    (mainInit (gs "*a\r\n")).listening = true :=
  ⟨by decide, C4_listen_despite_error _ (by decide)⟩

/-! ### Claim C5 -/

/-- C5: the length-line reader stops at a CR followed by ANY byte, not
only at CR LF — the loop in `readLine` checks only that the second-to-last
byte read is CR (a comment in the source itself notes it should check for
CRLF).  On `1\x0dX` it consumes all three bytes, treats `\x0dX` as the
terminator and parses the line `1` successfully, where the claim
requires consuming until CR LF; the non-numeric-line half of the claim
does hold (`ab\x0d\x0a` fails with a `ParseInt` error). -/
theorem C5_cr_only_terminator :
    readIntegerGo (gs "1\rX") = .ok (1, []) ∧
    readIntegerGo (gs "ab\r\n") = .error GoErr.numError := by decide

/-! ### Claim C6 -/

/-- C6: replay reconstructs state — appending the records for
`SET "k" "1"` and `HSET "h" "f" "2"` to a fresh log and replaying it
against an empty store succeeds and yields a store on which `GET "k"`
returns bulk `"1"` and `HGET "h" "f"` returns bulk `"2"`; and the
request loop never appends `GET` or `HGET` requests to the log — a
request is appended only when its upper-cased command name is `SET` or
`HSET`. -/
theorem C6_replay_reconstructs :
    AofRead (Value.Marshal c6req1 ++ Value.Marshal c6req2) emptyStore = (c6store, none) ∧
    (get [bulkV (gs "k")] c6store).1 = bulkV (gs "1") ∧
    (hget [bulkV (gs "h"), bulkV (gs "f")] c6store).1 = bulkV (gs "2") ∧
    (∀ (st : ServerState) (args : List Value),
      ((handleRequest st (arrayV (bulkV (gs "GET") :: args))).1).aof = st.aof) ∧
    (∀ (st : ServerState) (args : List Value),
      ((handleRequest st (arrayV (bulkV (gs "HGET") :: args))).1).aof = st.aof) ∧
    (∀ (st : ServerState) (v : Value),
      ((handleRequest st v).1).aof = st.aof ∨
        toUpper ((v.array.headD zeroValue).bulk) ∈ [gs "SET", gs "HSET"]) := by
  refine ⟨by decide, by decide, by decide, fun st args => rfl, fun st args => rfl, ?_⟩
  intro st v
  by_cases h4 : toUpper ((v.array.headD zeroValue).bulk) = gs "SET" ∨
      toUpper ((v.array.headD zeroValue).bulk) = gs "HSET"
  · right
    simpa using h4
  · left
    unfold handleRequest
    split
    · rfl
    · split
      · rfl
      · cases h5 : Handlers (toUpper ((v.array.headD zeroValue).bulk)) with
        | none => rfl
        | some handler => simp [h4]

/-! ### Claim C7 -/

/-- C7: arity enforcement — for every argument list of the wrong
length, each of `set` (arity 2), `hset` (3), `get` (1), `hget` (2)
leaves an error value whose text contains
`wrong number of arguments`. -/
theorem C7_arity (args : List Value) (s : Store) :
    (args.length ≠ 2 →
      (set args s).1 = Value.mk "error" (wrongArgsMsg (gs "set")) 0 [] [] ∧
      containsBytes (gs "wrong number of arguments") ((set args s).1).str) ∧
    (args.length ≠ 3 →
      (hset args s).1 = Value.mk "error" (wrongArgsMsg (gs "hset")) 0 [] [] ∧
      containsBytes (gs "wrong number of arguments") ((hset args s).1).str) ∧
    (args.length ≠ 1 →
      (get args s).1 = Value.mk "error" (wrongArgsMsg (gs "get")) 0 [] [] ∧
      containsBytes (gs "wrong number of arguments") ((get args s).1).str) ∧
    (args.length ≠ 2 →
      (hget args s).1 = Value.mk "error" (wrongArgsMsg (gs "hget")) 0 [] [] ∧
      containsBytes (gs "wrong number of arguments") ((hget args s).1).str) := by
  refine ⟨fun h => ?_, fun h => ?_, fun h => ?_, fun h => ?_⟩
  · unfold set
    rw [if_pos h]
    refine ⟨rfl, gs "ERR ", gs " for " ++ [39] ++ gs "set" ++ [39] ++ gs " command", ?_⟩
    show wrongArgsMsg (gs "set") =
      gs "ERR " ++ gs "wrong number of arguments" ++
        (gs " for " ++ [39] ++ gs "set" ++ [39] ++ gs " command")
    decide
  · unfold hset
    rw [if_pos h]
    refine ⟨rfl, gs "ERR ", gs " for " ++ [39] ++ gs "hset" ++ [39] ++ gs " command", ?_⟩
    show wrongArgsMsg (gs "hset") =
      gs "ERR " ++ gs "wrong number of arguments" ++
        (gs " for " ++ [39] ++ gs "hset" ++ [39] ++ gs " command")
    decide
  · unfold get
    rw [if_pos h]
    refine ⟨rfl, gs "ERR ", gs " for " ++ [39] ++ gs "get" ++ [39] ++ gs " command", ?_⟩
    show wrongArgsMsg (gs "get") =
      gs "ERR " ++ gs "wrong number of arguments" ++
        (gs " for " ++ [39] ++ gs "get" ++ [39] ++ gs " command")
    decide
  · unfold hget
    rw [if_pos h]
    refine ⟨rfl, gs "ERR ", gs " for " ++ [39] ++ gs "hget" ++ [39] ++ gs " command", ?_⟩
    show wrongArgsMsg (gs "hget") =
      gs "ERR " ++ gs "wrong number of arguments" ++
        (gs " for " ++ [39] ++ gs "hget" ++ [39] ++ gs " command")
    decide

theorem C7_arity_witness :
    (([] : List Value).length ≠ 2) ∧ (([] : List Value).length ≠ 3) ∧
    (([] : List Value).length ≠ 1) ∧
    (set [] emptyStore).1 = Value.mk "error" (wrongArgsMsg (gs "set")) 0 [] [] ∧
    containsBytes (gs "wrong number of arguments") ((set [] emptyStore).1).str ∧
    (hset [] emptyStore).1 = Value.mk "error" (wrongArgsMsg (gs "hset")) 0 [] [] ∧
    containsBytes (gs "wrong number of arguments") ((hset [] emptyStore).1).str ∧
    (get [] emptyStore).1 = Value.mk "error" (wrongArgsMsg (gs "get")) 0 [] [] ∧
    containsBytes (gs "wrong number of arguments") ((get [] emptyStore).1).str ∧
    (hget [] emptyStore).1 = Value.mk "error" (wrongArgsMsg (gs "hget")) 0 [] [] ∧
    containsBytes (gs "wrong number of arguments") ((hget [] emptyStore).1).str := by
  have h := C7_arity [] emptyStore
  exact ⟨by decide, by decide, by decide,
    (h.1 (by decide)).1, (h.1 (by decide)).2,
    (h.2.1 (by decide)).1, (h.2.1 (by decide)).2,
    (h.2.2.1 (by decide)).1, (h.2.2.1 (by decide)).2,
    (h.2.2.2 (by decide)).1, (h.2.2.2 (by decide)).2⟩

/-! ### Claim C8 -/

/-- C8: absence semantics — for every store, `get` on a key absent from
the string map returns the null value (not an error), and `hget`
returns the null value both when the hash key is absent and when the
hash exists but the field is absent; the store is untouched. -/
theorem C8_absence (s : Store) (key hash field : List Nat) :
    (List.lookup key s.SETs = none →
      get [bulkV key] s = (Value.mk "null" [] 0 [] [], s)) ∧
    (List.lookup hash s.HSETs = none →
      hget [bulkV hash, bulkV field] s = (Value.mk "null" [] 0 [] [], s)) ∧
    (∀ m, List.lookup hash s.HSETs = some m → List.lookup field m = none →
      hget [bulkV hash, bulkV field] s = (Value.mk "null" [] 0 [] [], s)) := by
  refine ⟨fun h => ?_, fun h => ?_, fun m h1 h2 => ?_⟩
  · unfold get
    rw [if_neg (by simp)]
    simp [bulkV, Value.bulk, h]
  · unfold hget
    rw [if_neg (by simp)]
    simp [bulkV, Value.bulk, h]
  · unfold hget
    rw [if_neg (by simp)]
    simp [bulkV, Value.bulk, h1, h2]

theorem C8_absence_witness :
    List.lookup (gs "k") (Store.mk [] [(gs "h", [(gs "g", gs "v")])]).SETs = none ∧
    List.lookup (gs "x") (Store.mk [] [(gs "h", [(gs "g", gs "v")])]).HSETs = none ∧
    List.lookup (gs "h") (Store.mk [] [(gs "h", [(gs "g", gs "v")])]).HSETs =
      some [(gs "g", gs "v")] ∧
    List.lookup (gs "f") [(gs "g", gs "v")] = none ∧
    get [bulkV (gs "k")] (Store.mk [] [(gs "h", [(gs "g", gs "v")])]) =
      (Value.mk "null" [] 0 [] [], Store.mk [] [(gs "h", [(gs "g", gs "v")])]) ∧
    hget [bulkV (gs "x"), bulkV (gs "f")] (Store.mk [] [(gs "h", [(gs "g", gs "v")])]) =
      (Value.mk "null" [] 0 [] [], Store.mk [] [(gs "h", [(gs "g", gs "v")])]) ∧
    hget [bulkV (gs "h"), bulkV (gs "f")] (Store.mk [] [(gs "h", [(gs "g", gs "v")])]) =
      (Value.mk "null" [] 0 [] [], Store.mk [] [(gs "h", [(gs "g", gs "v")])]) := by
  have h := C8_absence (Store.mk [] [(gs "h", [(gs "g", gs "v")])]) (gs "k") (gs "x") (gs "f")
  have h2 := C8_absence (Store.mk [] [(gs "h", [(gs "g", gs "v")])]) (gs "k") (gs "h") (gs "f")
  exact ⟨by decide, by decide, by decide, by decide,
    h.1 (by decide), h.2.1 (by decide), h2.2.2 [(gs "g", gs "v")] (by decide) (by decide)⟩

/-! ### Claim C9 -/

/-- C9: a `SET` or `HSET` request with the wrong argument count is
still appended to the log — the append decision looks only at the
upper-cased command name and runs before the arity check of the handler
— so the log grows by the (nonempty) serialization of the request while the
store is left unchanged and the client gets the arity error. -/
theorem C9_wrong_arity_logged (st : ServerState) (args : List Value) :
    (args.length ≠ 2 →
      handleRequest st (arrayV (bulkV (gs "SET") :: args)) =
        ({ store := st.store,
           aof := st.aof ++ (arrayV (bulkV (gs "SET") :: args)).Marshal },
         some (Value.mk "error" (wrongArgsMsg (gs "set")) 0 [] []))) ∧
    (args.length ≠ 3 →
      handleRequest st (arrayV (bulkV (gs "HSET") :: args)) =
        ({ store := st.store,
           aof := st.aof ++ (arrayV (bulkV (gs "HSET") :: args)).Marshal },
         some (Value.mk "error" (wrongArgsMsg (gs "hset")) 0 [] []))) ∧
    (arrayV (bulkV (gs "SET") :: args)).Marshal ≠ [] ∧
    (arrayV (bulkV (gs "HSET") :: args)).Marshal ≠ [] := by
  refine ⟨fun h => ?_, fun h => ?_,
    by simp [arrayV, marshal_array], by simp [arrayV, marshal_array]⟩
  · have hred : handleRequest st (arrayV (bulkV (gs "SET") :: args)) =
        ({ store := (set args st.store).2,
           aof := st.aof ++ (arrayV (bulkV (gs "SET") :: args)).Marshal },
         some (set args st.store).1) := rfl
    have hs : set args st.store =
        (Value.mk "error" (wrongArgsMsg (gs "set")) 0 [] [], st.store) := by
      unfold set
      rw [if_pos h]
    rw [hred, hs]
  · have hred : handleRequest st (arrayV (bulkV (gs "HSET") :: args)) =
        ({ store := (hset args st.store).2,
           aof := st.aof ++ (arrayV (bulkV (gs "HSET") :: args)).Marshal },
         some (hset args st.store).1) := rfl
    have hs : hset args st.store =
        (Value.mk "error" (wrongArgsMsg (gs "hset")) 0 [] [], st.store) := by
      unfold hset
      rw [if_pos h]
    rw [hred, hs]

theorem C9_wrong_arity_logged_witness :
    (([] : List Value).length ≠ 2) ∧ (([] : List Value).length ≠ 3) ∧
    handleRequest { store := emptyStore, aof := [] } (arrayV [bulkV (gs "SET")]) =
      ({ store := emptyStore, aof := [] ++ (arrayV [bulkV (gs "SET")]).Marshal },
       some (Value.mk "error" (wrongArgsMsg (gs "set")) 0 [] [])) ∧
    handleRequest { store := emptyStore, aof := [] } (arrayV [bulkV (gs "HSET")]) =
      ({ store := emptyStore, aof := [] ++ (arrayV [bulkV (gs "HSET")]).Marshal },
       some (Value.mk "error" (wrongArgsMsg (gs "hset")) 0 [] [])) := by
  have h := C9_wrong_arity_logged { store := emptyStore, aof := [] } []
  exact ⟨by decide, by decide, h.1 (by decide), h.2.1 (by decide)⟩

/-! ### Claim C10 -/

/-- C10: the read-only handlers `ping`, `get` and `hget` leave both
store maps unchanged, for every argument list and every store. -/
theorem C10_readonly_frame (args : List Value) (s : Store) :
    (ping args s).2 = s ∧ (get args s).2 = s ∧ (hget args s).2 = s := by
  refine ⟨?_, ?_, ?_⟩
  · cases args <;> rfl
  · unfold get
    split
    · rfl
    · cases List.lookup ((args.getD 0 zeroValue).bulk) s.SETs <;> rfl
  · unfold hget
    split
    · rfl
    · cases List.lookup ((args.getD 1 zeroValue).bulk)
        (match List.lookup ((args.getD 0 zeroValue).bulk) s.HSETs with
          | none => []
          | some m => m) <;> rfl

end RedisGo
